import Mathlib

/-!
Shallow embedding of the live-share SDK core: the `LiveEvent.isNewer`
event-ordering rule, the `SharedClock` monotonic timestamp issuance and
accuracy-improvement loop, and the `LivePresence` roster merge.  Timestamps
are modelled as `Int` (milliseconds since the epoch), client identifiers as
`String` (with `localeCompare` modelled as the lexicographic order on
strings), and JS `number` values that only ever face order comparisons
(probe latencies, the expiration period in seconds) as `ℚ`.
-/

/-- An event record carrying a timestamp and the (optional) connection id of
its sender, as in `IClientTimestamp`. -/
structure IClientTimestamp where
  timestamp : Int
  clientId : Option String
deriving DecidableEq, Repr

/-- `LiveEvent.isNewer(current, received, debouncePeriod)`: should `received`
replace `current`?  Mirrors the source: an absent `current` always loses; on
equal timestamps the tie-break keeps `current` when its clientId sorts at or
below `received`'s (`localeCompare <= 0`); an older `received` is accepted
only when it falls inside the debounce window; a more recent `received` is
rejected while still inside the debounce window. -/
def LiveEvent.isNewer (current : Option IClientTimestamp)
    (received : IClientTimestamp) (debouncePeriod : Int := 0) : Bool :=
  match current with
  | some current =>
    if current.timestamp = received.timestamp then
      if (current.clientId.getD "") ≤ (received.clientId.getD "") then
        false
      else
        true
    else if current.timestamp > received.timestamp then
      if current.timestamp - received.timestamp > debouncePeriod then
        false
      else
        true
    else
      if received.timestamp - current.timestamp < debouncePeriod then
        false
      else
        true
  | none => true

/-- One replacement step: keep `current` unless `isNewer` accepts `received`. -/
def LiveEvent.applyReceived (debouncePeriod : Int)
    (current : Option IClientTimestamp) (received : IClientTimestamp) :
    Option IClientTimestamp :=
  if LiveEvent.isNewer current received debouncePeriod then some received
  else current

/-- Repeatedly apply the replacement rule to a delivery sequence, starting
from an absent current record. -/
def LiveEvent.applyAll (debouncePeriod : Int)
    (records : List IClientTimestamp) : Option IClientTimestamp :=
  records.foldl (LiveEvent.applyReceived debouncePeriod) none

/-- The clientId a record is compared by: blank for a disconnected client. -/
def recOrigin (r : IClientTimestamp) : String :=
  r.clientId.getD ""

/-- The ordering key of a record under the zero-debounce rule: timestamp
first, then the clientId reversed (the lower-sorting origin wins ties). -/
def recKey (r : IClientTimestamp) : Lex (Int × Stringᵒᵈ) :=
  toLex (r.timestamp, OrderDual.toDual (recOrigin r))

/-- `SharedClock.getTimestamp`: the value returned (and saved as the new
`_lastTimeSent`) for one call, given the saved `_lastTimeSent`, the local
clock reading `Date.now()` and the adopted server offset. -/
def SharedClock.getTimestamp (lastTimeSent dateNow offset : Int) : Int :=
  max (dateNow + offset) (lastTimeSent + 1)

/-- The sequence of values a started clock returns over a sequence of calls,
each call supplying a (local clock, adopted offset) pair. -/
def SharedClock.runTimestamps (lastTimeSent : Int) :
    List (Int × Int) → List Int
  | [] => []
  | call :: rest =>
    let t := SharedClock.getTimestamp lastTimeSent call.1 call.2
    t :: SharedClock.runTimestamps t rest

/-- A probe result, as in `IServerTimeOffset`.  The request latency comes
from `performance.now()` differences; only its ordering matters here. -/
structure IServerTimeOffset where
  offset : Int
  serverTimeInUtc : Int
  localTimeInUtc : Int
  requestLatency : ℚ
deriving DecidableEq

/-- The accuracy-improvement loop state: the adopted estimate
(`_serverTime`), the consecutive non-improvement count (`_retries`) and
whether a further probe is scheduled (`_syncTimer`). -/
structure ClockState where
  serverTime : Option IServerTimeOffset
  retries : Nat
  syncTimer : Bool
deriving DecidableEq

def SHARED_CLOCK_IMPROVE_ACCURACY_ATTEMPTS : Nat := 5

/-- One pass of `SharedClock.improveAccuracy` after its probe resolves:
adopt the probe when no estimate exists or its latency is strictly lower,
resetting the retry count, else count a non-improvement; then schedule the
next probe exactly when `_retries <= SHARED_CLOCK_IMPROVE_ACCURACY_ATTEMPTS`. -/
def SharedClock.improveAccuracy (s : ClockState)
    (probe : IServerTimeOffset) : ClockState :=
  let adopt : Bool :=
    match s.serverTime with
    | none => true
    | some best => decide (probe.requestLatency < best.requestLatency)
  let serverTime := if adopt then some probe else s.serverTime
  let retries := if adopt then 0 else s.retries + 1
  { serverTime := serverTime
    retries := retries
    syncTimer := decide (retries ≤ SHARED_CLOCK_IMPROVE_ACCURACY_ATTEMPTS) }

/-- Presence states, as in the `PresenceState` enum. -/
inductive PresenceState where
  | online
  | away
  | offline
deriving DecidableEq, Repr

/-- An `UpdatePresence` event, as in `ILivePresenceEvent<TData>`. -/
structure ILivePresenceEvent (TData : Type) where
  name : String
  timestamp : Int
  clientId : Option String
  userId : String
  state : PresenceState
  data : Option TData
deriving DecidableEq

/-- A tracked roster entry, as in `LivePresenceUser<TData>`: the latest
accepted record for a user plus the local-user flag. -/
structure LivePresenceUser (TData : Type) where
  record : ILivePresenceEvent TData
  isLocalUser : Bool
deriving DecidableEq

def LivePresenceUser.userId {TData : Type} (u : LivePresenceUser TData) :
    String :=
  u.record.userId

/-- The `IClientTimestamp` view of a presence event, fed to `isNewer`. -/
def eventClientTimestamp {TData : Type} (e : ILivePresenceEvent TData) :
    IClientTimestamp :=
  ⟨e.timestamp, e.clientId⟩

/-- Modelled from the spec: `LivePresenceUser.updateReceived` is not under
src/.  Per the merge algorithm of the spec, the stored record is replaced and
the change reported exactly when `isNewer(existing, record, 0)` holds,
otherwise the update is a no-op. -/
def LivePresenceUser.updateReceived {TData : Type}
    (u : LivePresenceUser TData) (evt : ILivePresenceEvent TData) :
    LivePresenceUser TData × Bool :=
  if LiveEvent.isNewer (some (eventClientTimestamp u.record))
      (eventClientTimestamp evt) 0 then
    ({ u with record := evt }, true)
  else
    (u, false)

/-- `LivePresence.updateMembersList`: scan the roster; on a userId match,
apply the update to that entry; insert a fresh entry in front of the first
entry whose userId the event's userId sorts strictly after
(`localeCompare > 0`); otherwise keep scanning, appending at the end.  The
returned flag records whether a `presenceChanged` notification fired. -/
def LivePresence.updateMembersList {TData : Type} (localUserId : String)
    (evt : ILivePresenceEvent TData) :
    List (LivePresenceUser TData) → List (LivePresenceUser TData) × Bool
  | [] => ([⟨evt, decide (evt.userId = localUserId)⟩], true)
  | current :: rest =>
    if evt.userId = current.userId then
      let res := current.updateReceived evt
      (res.1 :: rest, res.2)
    else if current.userId < evt.userId then
      (⟨evt, decide (evt.userId = localUserId)⟩ :: current :: rest, true)
    else
      let res := LivePresence.updateMembersList localUserId evt rest
      (current :: res.1, res.2)

/-- The roster after a sequence of merges, starting from a given roster. -/
def LivePresence.applyEvents {TData : Type} (localUserId : String)
    (evts : List (ILivePresenceEvent TData))
    (users : List (LivePresenceUser TData)) :
    List (LivePresenceUser TData) :=
  evts.foldl
    (fun us e => (LivePresence.updateMembersList localUserId e us).1) users

/-- The mutable state of a `LivePresence` object: whether `_scope` is set
(the object is initialized), the roster `_users` and `_currentPresence`. -/
structure LivePresenceState (TData : Type) where
  scope : Bool
  users : List (LivePresenceUser TData)
  currentPresence : ILivePresenceEvent TData
deriving DecidableEq

/-- A freshly constructed, not yet initialized `LivePresence` object. -/
def LivePresence.freshState (TData : Type) : LivePresenceState TData :=
  { scope := false
    users := []
    currentPresence :=
      { name := "UpdatePresence", timestamp := 0, clientId := none
        userId := "", state := PresenceState.offline, data := none } }

/-- The one-time initialization: errors when already started, else records
the local presence (timestamp from the clock, resolved userId and clientId
supplied by the runtime) and adds the local user to the roster. -/
def LivePresence.initializeState {TData : Type} (p : LivePresenceState TData)
    (timestamp : Int) (userId : String) (data : Option TData)
    (state : PresenceState) (clientId : String) :
    Except String (LivePresenceState TData) :=
  if p.scope then
    Except.error "LivePresence: already started."
  else
    let cur : ILivePresenceEvent TData :=
      { name := "UpdatePresence", timestamp := timestamp
        clientId := some clientId, userId := userId, state := state
        data := data }
    Except.ok
      { scope := true
        users := (LivePresence.updateMembersList userId cur p.users).1
        currentPresence := cur }

/-- `LivePresence.updatePresence`: errors when not started, else broadcasts
and immediately applies a fresh presence event for the local user, keeping
the previous state or data when the corresponding argument is omitted. -/
def LivePresence.updatePresence {TData : Type} (p : LivePresenceState TData)
    (state : Option PresenceState) (data : Option TData) (timestamp : Int)
    (clientId : String) : Except String (LivePresenceState TData) :=
  if !p.scope then
    Except.error "LivePresence: not started."
  else
    let evt : ILivePresenceEvent TData :=
      { name := "UpdatePresence", timestamp := timestamp
        clientId := some clientId, userId := p.currentPresence.userId
        state := state.getD p.currentPresence.state
        data := data.orElse (fun _ => p.currentPresence.data) }
    Except.ok
      { scope := p.scope
        users :=
          (LivePresence.updateMembersList p.currentPresence.userId evt
            p.users).1
        currentPresence := evt }

/-- `LivePresence.forEach` as the list of roster entries visited: the source
iterates `_users` with no initialization check, skipping entries that fail
the optional state filter.  (The filter reads the user's state; the
`LivePresenceUser` state getter is not under src/, modelled as the stored
state, which does not affect the error behaviour.) -/
def LivePresence.forEach {TData : Type} (p : LivePresenceState TData)
    (filter : Option PresenceState) :
    Except String (List (LivePresenceUser TData)) :=
  Except.ok (p.users.filter fun u =>
    match filter with
    | none => true
    | some f => decide (u.record.state = f))

/-- `LivePresence.getCount`: counts matching entries when a filter is given,
else the roster length; no initialization check in the source. -/
def LivePresence.getCount {TData : Type} (p : LivePresenceState TData)
    (filter : Option PresenceState) : Except String Nat :=
  Except.ok
    (match filter with
     | some f => (p.users.filter fun u => decide (u.record.state = f)).length
     | none => p.users.length)

/-- `LivePresence.getPresenceForUser`: first roster entry with the given
userId; no initialization check in the source. -/
def LivePresence.getPresenceForUser {TData : Type}
    (p : LivePresenceState TData) (userId : String) :
    Except String (Option (LivePresenceUser TData)) :=
  Except.ok (p.users.find? fun u => decide (u.userId = userId))

/-- Whether a modelled call returned normally rather than throwing. -/
def exceptIsOk {ε α : Type} : Except ε α → Bool
  | Except.ok _ => true
  | Except.error _ => false

/-- Modelled from the spec: `TimeInterval` is not under src/.  It stores a
duration in milliseconds (`new TimeInterval(20000)`) and exposes a `seconds`
view; the seconds getter and setter convert by a factor of 1000. -/
structure TimeInterval where
  milliseconds : ℚ
deriving DecidableEq

def TimeInterval.seconds (t : TimeInterval) : ℚ :=
  t.milliseconds / 1000

def TimeInterval.setSeconds (value : ℚ) : TimeInterval :=
  ⟨value * 1000⟩

/-- The `expirationPeriod` setter: store `value > 0.1 ? value : 0.1` seconds. -/
def LivePresence.setExpirationPeriod (value : ℚ) : TimeInterval :=
  TimeInterval.setSeconds (if value > 0.1 then value else 0.1)

/-- The `expirationPeriod` getter: the stored interval in seconds. -/
def LivePresence.getExpirationPeriod (t : TimeInterval) : ℚ :=
  t.seconds

/-! ### C1: the equal-timestamp tie-break -/

/-- C1 counterexample: the claim says `isNewer` with equal timestamps and
originIds "a" (current) and "b" (received) returns true; the code returns
false, because the tie-break keeps the record whose clientId sorts lower
(`localeCompare <= 0` rejects the received event). -/
theorem isNewer_tie_claimed_order_counterexample :
    LiveEvent.isNewer (some ⟨100, some "a"⟩) ⟨100, some "b"⟩ 0 = false := by
  have hle : ("a" : String) ≤ "b" := by
    rw [String.le_iff_toList_le]
    decide
  simp [LiveEvent.isNewer, hle]

/-- C1 amended: with equal timestamps, `isNewer` returns true exactly when
the received record's originId sorts lexicographically strictly before the
current record's; equal originIds return false.  In particular
`isNewer({100,"a"},{100,"b"})` is false and the reversed call is true. -/
theorem isNewer_tie_lower_origin_wins (c r : IClientTimestamp) (d : Int)
    (h : c.timestamp = r.timestamp) :
    LiveEvent.isNewer (some c) r d = true ↔
      (r.clientId.getD "") < (c.clientId.getD "") := by
  simp only [LiveEvent.isNewer, if_pos h]
  by_cases hle : (c.clientId.getD "") ≤ (r.clientId.getD "")
  · rw [if_pos hle]
    simp only [Bool.false_eq_true, false_iff]
    exact not_lt.mpr hle
  · rw [if_neg hle]
    simp only [true_iff]
    exact not_le.mp hle

/-- C1 witness: the amended tie-break at timestamps 100, current originId
"b", received originId "a". -/
theorem isNewer_tie_lower_origin_wins_witness :
    ((⟨100, some "b"⟩ : IClientTimestamp).timestamp
        = (⟨100, some "a"⟩ : IClientTimestamp).timestamp) ∧
      (LiveEvent.isNewer (some ⟨100, some "b"⟩) ⟨100, some "a"⟩ 0 = true ↔
        ((⟨100, some "a"⟩ : IClientTimestamp).clientId.getD "")
          < ((⟨100, some "b"⟩ : IClientTimestamp).clientId.getD "")) :=
  ⟨rfl, isNewer_tie_lower_origin_wins ⟨100, some "b"⟩ ⟨100, some "a"⟩ 0 rfl⟩

/-! ### C3: an older received event against the debounce window -/

/-- C3 counterexample: the claim says an older received event is accepted
exactly when the timestamp delta exceeds the debounce period, so
`isNewer({1000},{990},5)` (delta 10 > 5) would return true; the code
returns false, rejecting older events whose delta exceeds the debounce. -/
theorem isNewer_older_claimed_rule_counterexample :
    LiveEvent.isNewer (some ⟨1000, none⟩) ⟨990, none⟩ 5 = false := by
  decide

/-- C3 amended: when the current record's timestamp is strictly greater,
`isNewer` returns true exactly when the delta is at most the debounce
period: an older event close enough that it should have debounced the
current one is accepted, while an older event beyond the window is
rejected. -/
theorem isNewer_older_within_debounce (c r : IClientTimestamp) (d : Int)
    (h : r.timestamp < c.timestamp) :
    LiveEvent.isNewer (some c) r d = true ↔
      c.timestamp - r.timestamp ≤ d := by
  simp only [LiveEvent.isNewer]
  rw [if_neg (by omega), if_pos (by omega)]
  by_cases hgt : c.timestamp - r.timestamp > d
  · rw [if_pos hgt]
    simp only [Bool.false_eq_true, false_iff]
    omega
  · rw [if_neg hgt]
    simp only [true_iff]
    omega

/-- C3 witness: the amended rule at current timestamp 1000, received
timestamp 995, debounce 5 (delta 5 <= 5, accepted). -/
theorem isNewer_older_within_debounce_witness :
    ((⟨995, none⟩ : IClientTimestamp).timestamp
        < (⟨1000, none⟩ : IClientTimestamp).timestamp) ∧
      (LiveEvent.isNewer (some ⟨1000, none⟩) ⟨995, none⟩ 5 = true ↔
        (⟨1000, none⟩ : IClientTimestamp).timestamp
            - (⟨995, none⟩ : IClientTimestamp).timestamp ≤ 5) :=
  ⟨by decide, isNewer_older_within_debounce ⟨1000, none⟩ ⟨995, none⟩ 5 (by decide)⟩

/-! ### C4: a more recent received event against the debounce window -/

/-- C4: when the received record's timestamp is strictly greater, `isNewer`
returns true exactly when the delta reaches the debounce period; a too
recent update inside the window is rejected.  In particular
`isNewer({1000},{1003},5)` is false and `isNewer({1000},{1006},5)` is true. -/
theorem isNewer_newer_debounce_boundary (c r : IClientTimestamp) (d : Int)
    (h : c.timestamp < r.timestamp) :
    LiveEvent.isNewer (some c) r d = true ↔
      d ≤ r.timestamp - c.timestamp := by
  simp only [LiveEvent.isNewer]
  rw [if_neg (by omega), if_neg (by omega)]
  by_cases hlt : r.timestamp - c.timestamp < d
  · rw [if_pos hlt]
    simp only [Bool.false_eq_true, false_iff]
    omega
  · rw [if_neg hlt]
    simp only [true_iff]
    omega

/-- C4 witness: the boundary at current timestamp 1000, received timestamp
1006, debounce 5 (delta 6 >= 5, accepted). -/
theorem isNewer_newer_debounce_boundary_witness :
    ((⟨1000, none⟩ : IClientTimestamp).timestamp
        < (⟨1006, none⟩ : IClientTimestamp).timestamp) ∧
      (LiveEvent.isNewer (some ⟨1000, none⟩) ⟨1006, none⟩ 5 = true ↔
        (5 : Int) ≤ (⟨1006, none⟩ : IClientTimestamp).timestamp
            - (⟨1000, none⟩ : IClientTimestamp).timestamp) :=
  ⟨by decide, isNewer_newer_debounce_boundary ⟨1000, none⟩ ⟨1006, none⟩ 5 (by decide)⟩

/-! ### C5: strict monotonicity of the started clock -/

/-- C5: over any sequence of calls, each value the started clock returns is
strictly greater than the previous one (and than the saved `_lastTimeSent`),
even when the local clock reading or the adopted offset decreases between
calls: every returned value is clamped to at least `_lastTimeSent + 1`. -/
theorem sharedClock_strictly_monotone (lastTimeSent : Int)
    (calls : List (Int × Int)) :
    List.Chain' (· < ·)
      (lastTimeSent :: SharedClock.runTimestamps lastTimeSent calls) := by
  induction calls generalizing lastTimeSent with
  | nil => simp [SharedClock.runTimestamps]
  | cons call rest ih =>
    simp only [SharedClock.runTimestamps]
    refine List.chain'_cons.mpr ⟨?_, ih _⟩
    calc lastTimeSent < lastTimeSent + 1 := by omega
      _ ≤ SharedClock.getTimestamp lastTimeSent call.1 call.2 :=
        le_max_right (call.1 + call.2) (lastTimeSent + 1)

/-! ### C6: the accuracy-improvement loop keeps probing after 5 failures -/

/-- C6: the code contradicts the claim (and its own doc comment, which says
the loop runs until 5 probes pass without an improvement).  After a first
probe is adopted with latency 10, five consecutive probes with latency 10
fail to improve on the best latency seen, yet the retry budget check
`_retries <= 5` still schedules a sixth probe: `syncTimer` is still true and
only a sixth consecutive failure stops the sampling loop. -/
theorem improveAccuracy_five_failures_still_scheduled :
    (((List.replicate 5 (⟨0, 0, 0, 10⟩ : IServerTimeOffset)).foldl
        SharedClock.improveAccuracy
        (SharedClock.improveAccuracy ⟨none, 0, false⟩ ⟨0, 0, 0, 10⟩)).retries
        = 5) ∧
      ((List.replicate 5 (⟨0, 0, 0, 10⟩ : IServerTimeOffset)).foldl
        SharedClock.improveAccuracy
        (SharedClock.improveAccuracy ⟨none, 0, false⟩ ⟨0, 0, 0, 10⟩)).syncTimer
        = true ∧
      ((SharedClock.improveAccuracy
        ((List.replicate 5 (⟨0, 0, 0, 10⟩ : IServerTimeOffset)).foldl
          SharedClock.improveAccuracy
          (SharedClock.improveAccuracy ⟨none, 0, false⟩ ⟨0, 0, 0, 10⟩))
        ⟨0, 0, 0, 10⟩).syncTimer = false) := by
  decide

/-! ### C10: the expirationPeriod floor -/

/-- C10: assigning `v` to `expirationPeriod` stores `v` seconds when
`v > 0.1` and exactly `0.1` seconds otherwise, and the getter returns the
stored value. -/
theorem expirationPeriod_clamp (v : ℚ) :
    (0.1 < v →
      LivePresence.getExpirationPeriod (LivePresence.setExpirationPeriod v)
        = v) ∧
    (¬ 0.1 < v →
      LivePresence.getExpirationPeriod (LivePresence.setExpirationPeriod v)
        = 0.1) := by
  constructor
  · intro h
    simp only [LivePresence.getExpirationPeriod, LivePresence.setExpirationPeriod,
      TimeInterval.setSeconds, TimeInterval.seconds, gt_iff_lt, if_pos h]
    field_simp
  · intro h
    simp only [LivePresence.getExpirationPeriod, LivePresence.setExpirationPeriod,
      TimeInterval.setSeconds, TimeInterval.seconds, gt_iff_lt, if_neg h]
    norm_num

/-! ### C2: order independence of repeated application -/

/-- Under a zero debounce, `isNewer` accepts exactly the records whose key
(timestamp, then reversed clientId) is strictly greater. -/
theorem isNewer_zero_iff (c r : IClientTimestamp) :
    LiveEvent.isNewer (some c) r 0 = true ↔ recKey c < recKey r := by
  rw [recKey, recKey, Prod.Lex.lt_iff]
  simp only [OrderDual.toDual_lt_toDual, recOrigin]
  simp only [LiveEvent.isNewer]
  by_cases h1 : c.timestamp = r.timestamp
  · rw [if_pos h1]
    by_cases h2 : (c.clientId.getD "") ≤ (r.clientId.getD "")
    · rw [if_pos h2]
      simp only [Bool.false_eq_true, false_iff]
      push_neg
      exact ⟨by omega, fun _ => not_lt.mpr h2⟩
    · rw [if_neg h2]
      simp only [true_iff]
      exact Or.inr ⟨h1, not_le.mp h2⟩
  · rw [if_neg h1]
    by_cases h3 : c.timestamp > r.timestamp
    · rw [if_pos h3, if_pos (by omega)]
      simp only [Bool.false_eq_true, false_iff]
      push_neg
      exact ⟨by omega, fun h => absurd h (by omega)⟩
    · rw [if_neg h3, if_neg (by omega)]
      simp only [true_iff]
      exact Or.inl (by omega)

/-- Equal keys force equal timestamps and equal normalized clientIds. -/
theorem recKey_eq_iff (x y : IClientTimestamp) :
    recKey x = recKey y ↔
      x.timestamp = y.timestamp ∧ recOrigin x = recOrigin y := by
  constructor
  · intro h
    have h' := congrArg (fun k : Lex (Int × Stringᵒᵈ) => ofLex k) h
    simp only [recKey, ofLex_toLex] at h'
    exact ⟨congrArg Prod.fst h',
      OrderDual.toDual_inj.mp (congrArg Prod.snd h')⟩
  · intro ⟨h1, h2⟩
    simp [recKey, h1, h2]

/-- Folding the zero-debounce replacement rule from a held record yields a
held record that is among the inputs (or the start), has a key at least the
start's, and has a key at least every input's. -/
theorem foldl_applyReceived_max (l : List IClientTimestamp) :
    ∀ c : IClientTimestamp, ∃ r,
      l.foldl (LiveEvent.applyReceived 0) (some c) = some r ∧
        (r = c ∨ r ∈ l) ∧ recKey c ≤ recKey r ∧
        ∀ x ∈ l, recKey x ≤ recKey r := by
  induction l with
  | nil =>
    intro c
    exact ⟨c, rfl, Or.inl rfl, le_refl _, by simp⟩
  | cons x xs ih =>
    intro c
    simp only [List.foldl_cons]
    by_cases hx : LiveEvent.isNewer (some c) x 0 = true
    · have hstep : LiveEvent.applyReceived 0 (some c) x = some x := by
        simp [LiveEvent.applyReceived, hx]
      rw [hstep]
      obtain ⟨r, hr, hmem, hle, hall⟩ := ih x
      have hcx : recKey c < recKey x := (isNewer_zero_iff c x).mp hx
      refine ⟨r, hr, ?_, le_trans (le_of_lt hcx) hle, ?_⟩
      · rcases hmem with h | h
        · exact Or.inr (by simp [h])
        · exact Or.inr (List.mem_cons_of_mem _ h)
      · intro y hy
        rcases List.mem_cons.mp hy with h | h
        · rw [h]; exact hle
        · exact hall y h
    · have hstep : LiveEvent.applyReceived 0 (some c) x = some c := by
        simp [LiveEvent.applyReceived, hx]
      rw [hstep]
      obtain ⟨r, hr, hmem, hle, hall⟩ := ih c
      have hxc : recKey x ≤ recKey c :=
        not_lt.mp ((isNewer_zero_iff c x).not.mp hx)
      refine ⟨r, hr, ?_, hle, ?_⟩
      · rcases hmem with h | h
        · exact Or.inl h
        · exact Or.inr (List.mem_cons_of_mem _ h)
      intro y hy
      rcases List.mem_cons.mp hy with h | h
      · rw [h]; exact le_trans hxc hle
      · exact hall y h

/-- On a nonempty delivery sequence, `applyAll 0` yields a record of the
sequence whose key dominates every delivered record's key. -/
theorem applyAll_zero_eq_max (l : List IClientTimestamp) (hl : l ≠ []) :
    ∃ r, LiveEvent.applyAll 0 l = some r ∧ r ∈ l ∧
      ∀ x ∈ l, recKey x ≤ recKey r := by
  cases l with
  | nil => exact absurd rfl hl
  | cons a t =>
    have hstep : LiveEvent.applyReceived 0 none a = some a := by
      simp [LiveEvent.applyReceived, LiveEvent.isNewer]
    obtain ⟨r, hr, hmem, hle, hall⟩ := foldl_applyReceived_max t a
    refine ⟨r, ?_, ?_, ?_⟩
    · simp only [LiveEvent.applyAll, List.foldl_cons, hstep]
      exact hr
    · rcases hmem with h | h
      · simp [h]
      · exact List.mem_cons_of_mem _ h
    · intro x hx
      rcases List.mem_cons.mp hx with h | h
      · rw [h]; exact hle
      · exact hall x h

/-- C2 counterexample: with a debounce of 5 ms, delivering the records
(timestamp 0, "x") and (timestamp 5, "y") in the two possible orders (the
timestamps differ by exactly the debounce) converges to different final
records: each record is accepted over the other, so the replicas disagree. -/
theorem applyAll_debounce_order_dependent :
    LiveEvent.applyAll 5
        [⟨0, some "x"⟩, ⟨5, some "y"⟩]
      ≠ LiveEvent.applyAll 5
        [⟨5, some "y"⟩, ⟨0, some "x"⟩] := by
  decide

/-- C2 amended: with a zero debounce, and provided no two distinct delivered
records share both their timestamp and their normalized clientId, any two
delivery sequences with the same set of records (any order, any duplication)
converge to the same final current record.  With a positive debounce the
code is order dependent. -/
theorem applyAll_zero_debounce_convergence (l1 l2 : List IClientTimestamp)
    (hmem : ∀ x, x ∈ l1 ↔ x ∈ l2)
    (hinj : ∀ x ∈ l1, ∀ y ∈ l1,
      x.timestamp = y.timestamp → recOrigin x = recOrigin y → x = y) :
    LiveEvent.applyAll 0 l1 = LiveEvent.applyAll 0 l2 := by
  by_cases h1 : l1 = []
  · have h2 : l2 = [] := by
      cases h : l2 with
      | nil => rfl
      | cons b t =>
        have hb : b ∈ l1 := (hmem b).mpr (by rw [h]; simp)
        rw [h1] at hb
        simp at hb
    rw [h1, h2]
  · have h2 : l2 ≠ [] := by
      intro h
      cases hc : l1 with
      | nil => exact h1 hc
      | cons a t =>
        have ha : a ∈ l2 := (hmem a).mp (by rw [hc]; simp)
        rw [h] at ha
        simp at ha
    obtain ⟨r1, e1, m1, max1⟩ := applyAll_zero_eq_max l1 h1
    obtain ⟨r2, e2, m2, max2⟩ := applyAll_zero_eq_max l2 h2
    have m2' : r2 ∈ l1 := (hmem r2).mpr m2
    have hr21 : recKey r2 ≤ recKey r1 := max1 r2 m2'
    have hr12 : recKey r1 ≤ recKey r2 := max2 r1 ((hmem r1).mp m1)
    have hkey := (recKey_eq_iff r1 r2).mp (le_antisymm hr12 hr21)
    have : r1 = r2 := hinj r1 m1 r2 m2' hkey.1 hkey.2
    rw [e1, e2, this]

/-- C2 witness: the amended convergence on the concrete sequences
[(1,"x"),(5,"y")] and [(5,"y"),(1,"x"),(1,"x")] (a permutation with a
duplicate). -/
theorem applyAll_zero_debounce_convergence_witness :
    (∀ x : IClientTimestamp,
        x ∈ [⟨1, some "x"⟩, ⟨5, some "y"⟩] ↔
          x ∈ [⟨5, some "y"⟩, ⟨1, some "x"⟩, ⟨1, some "x"⟩]) ∧
      LiveEvent.applyAll 0 [⟨1, some "x"⟩, ⟨5, some "y"⟩]
        = LiveEvent.applyAll 0
            [⟨5, some "y"⟩, ⟨1, some "x"⟩, ⟨1, some "x"⟩] := by
  have hmem : ∀ x : IClientTimestamp,
      x ∈ [⟨1, some "x"⟩, ⟨5, some "y"⟩] ↔
        x ∈ [⟨5, some "y"⟩, ⟨1, some "x"⟩, ⟨1, some "x"⟩] := by
    intro x
    simp only [List.mem_cons, List.not_mem_nil, or_false]
    tauto
  refine ⟨hmem, applyAll_zero_debounce_convergence _ _ hmem ?_⟩
  intro x hx y hy hts hor
  simp only [List.mem_cons, List.not_mem_nil, or_false] at hx hy
  rcases hx with rfl | rfl <;> rcases hy with rfl | rfl <;>
    first
      | rfl
      | (exfalso; simp only [] at hts; omega)

/-! ### Roster lemmas -/

/-- A record never replaces itself: equal timestamps and equal clientIds
fall to the `localeCompare <= 0` branch. -/
theorem isNewer_self (r : IClientTimestamp) (d : Int) :
    LiveEvent.isNewer (some r) r d = false := by
  simp [LiveEvent.isNewer]

/-- An update for the entry's own userId keeps that userId. -/
theorem updateReceived_userId_of_eq {TData : Type}
    (u : LivePresenceUser TData) (evt : ILivePresenceEvent TData)
    (h : evt.userId = u.userId) :
    ((u.updateReceived evt).1).userId = u.userId := by
  rw [LivePresenceUser.updateReceived]
  by_cases hn : LiveEvent.isNewer (some (eventClientTimestamp u.record))
      (eventClientTimestamp evt) 0 = true
  · rw [if_pos hn]
    exact h
  · rw [if_neg hn]

/-- Applying the same event to an entry twice reports no change the second
time: either the record already equals the event, or it already rejected it. -/
theorem updateReceived_twice_no_change {TData : Type}
    (u : LivePresenceUser TData) (evt : ILivePresenceEvent TData) :
    (((u.updateReceived evt).1).updateReceived evt).2 = false := by
  by_cases hn : LiveEvent.isNewer (some (eventClientTimestamp u.record))
      (eventClientTimestamp evt) 0 = true
  · have h1 : (u.updateReceived evt).1 = { u with record := evt } := by
      rw [LivePresenceUser.updateReceived, if_pos hn]
    rw [h1, LivePresenceUser.updateReceived, if_neg (by simp [isNewer_self])]
  · have h1 : (u.updateReceived evt).1 = u := by
      rw [LivePresenceUser.updateReceived, if_neg hn]
    rw [h1, LivePresenceUser.updateReceived, if_neg hn]

/-- Every userId in an updated roster is the event's or was already there. -/
theorem updateMembersList_ids {TData : Type} (localUserId : String)
    (evt : ILivePresenceEvent TData) :
    ∀ users : List (LivePresenceUser TData),
      ∀ s ∈ ((LivePresence.updateMembersList localUserId evt users).1).map
          LivePresenceUser.userId,
        s = evt.userId ∨ s ∈ users.map LivePresenceUser.userId := by
  intro users
  induction users with
  | nil =>
    intro s hs
    simp only [LivePresence.updateMembersList, List.map_cons, List.map_nil,
      List.mem_cons, List.not_mem_nil, or_false] at hs
    exact Or.inl (by simp [hs, LivePresenceUser.userId])
  | cons current rest ih =>
    intro s hs
    by_cases h1 : evt.userId = current.userId
    · rw [LivePresence.updateMembersList, if_pos h1] at hs
      simp only [List.map_cons, List.mem_cons] at hs
      rcases hs with h | h
      · rw [updateReceived_userId_of_eq current evt h1] at h
        exact Or.inr (by simp [h])
      · exact Or.inr (by simp [h])
    · by_cases h2 : current.userId < evt.userId
      · rw [LivePresence.updateMembersList, if_neg h1, if_pos h2] at hs
        simp only [List.map_cons, List.mem_cons] at hs
        rcases hs with h | h
        · exact Or.inl (by rw [h]; rfl)
        · refine Or.inr ?_
          rw [List.map_cons]
          exact List.mem_cons.mpr h
      · rw [LivePresence.updateMembersList, if_neg h1, if_neg h2] at hs
        simp only [List.map_cons, List.mem_cons] at hs
        rcases hs with h | h
        · refine Or.inr ?_
          rw [List.map_cons]
          exact List.mem_cons.mpr (Or.inl h)
        · rcases ih s h with h' | h'
          · exact Or.inl h'
          · refine Or.inr ?_
            rw [List.map_cons]
            exact List.mem_cons.mpr (Or.inr h')

/-- A merge keeps the roster's userIds strictly descending. -/
theorem updateMembersList_pairwise {TData : Type} (localUserId : String)
    (evt : ILivePresenceEvent TData) :
    ∀ users : List (LivePresenceUser TData),
      (users.map LivePresenceUser.userId).Pairwise (fun a b => b < a) →
      (((LivePresence.updateMembersList localUserId evt users).1).map
          LivePresenceUser.userId).Pairwise (fun a b => b < a) := by
  intro users
  induction users with
  | nil =>
    intro _
    simp [LivePresence.updateMembersList]
  | cons current rest ih =>
    intro hp
    simp only [List.map_cons, List.pairwise_cons] at hp
    obtain ⟨hcur, hrest⟩ := hp
    by_cases h1 : evt.userId = current.userId
    · rw [LivePresence.updateMembersList, if_pos h1]
      simp only [List.map_cons, List.pairwise_cons]
      rw [updateReceived_userId_of_eq current evt h1]
      exact ⟨hcur, hrest⟩
    · by_cases h2 : current.userId < evt.userId
      · rw [LivePresence.updateMembersList, if_neg h1, if_pos h2]
        simp only [List.map_cons, List.pairwise_cons, LivePresenceUser.userId]
        refine ⟨?_, hcur, hrest⟩
        intro b hb
        rcases List.mem_cons.mp hb with h | h
        · rw [h]; exact h2
        · exact lt_trans (hcur b h) h2
      · rw [LivePresence.updateMembersList, if_neg h1, if_neg h2]
        simp only [List.map_cons, List.pairwise_cons]
        refine ⟨?_, ih hrest⟩
        intro b hb
        rcases updateMembersList_ids localUserId evt rest b hb with h | h
        · rw [h]
          rcases lt_trichotomy evt.userId current.userId with h' | h' | h'
          · exact h'
          · exact absurd h' h1
          · exact absurd h' h2
        · exact hcur b h

/-- Any merge sequence keeps the roster's userIds strictly descending. -/
theorem applyEvents_pairwise {TData : Type} (localUserId : String)
    (evts : List (ILivePresenceEvent TData)) :
    ∀ users : List (LivePresenceUser TData),
      (users.map LivePresenceUser.userId).Pairwise (fun a b => b < a) →
      (((LivePresence.applyEvents localUserId evts users)).map
          LivePresenceUser.userId).Pairwise (fun a b => b < a) := by
  induction evts with
  | nil => intro users hp; exact hp
  | cons e rest ih =>
    intro users hp
    simp only [LivePresence.applyEvents, List.foldl_cons]
    exact ih _ (updateMembersList_pairwise localUserId e users hp)

/-! ### C7: roster uniqueness and enumeration order -/

/-- C7 counterexample: merging records for userIds "a" then "b" into an
empty roster makes `forEach` (and `toArray`) enumerate ["b", "a"]: the
insertion scan places the larger userId first, so the enumeration is not in
ascending userId order as claimed. -/
theorem roster_ascending_order_counterexample :
    ¬ (((LivePresence.applyEvents ""
          [⟨"UpdatePresence", 1, none, "a", PresenceState.online, none⟩,
            ⟨"UpdatePresence", 2, none, "b", PresenceState.online, none⟩]
          ([] : List (LivePresenceUser Unit))).map
            LivePresenceUser.userId).Pairwise (fun a b => a < b)) := by
  have hab : ("a" : String) < "b" := String.lt_iff_toList_lt.mpr (by decide)
  have hne : ("b" : String) ≠ "a" := by simp
  have hmap : ((LivePresence.applyEvents ""
      [⟨"UpdatePresence", 1, none, "a", PresenceState.online, none⟩,
        ⟨"UpdatePresence", 2, none, "b", PresenceState.online, none⟩]
      ([] : List (LivePresenceUser Unit))).map
        LivePresenceUser.userId) = ["b", "a"] := by
    simp [LivePresence.applyEvents, LivePresence.updateMembersList,
      LivePresenceUser.userId, hne, hab]
  rw [hmap]
  simp only [List.pairwise_cons]
  intro h
  have hba := h.1 "a" (by simp)
  rw [String.lt_iff_toList_lt] at hba
  exact absurd hba (by decide)

/-- C7 amended: after any sequence of merges into an initially empty roster,
the roster holds at most one entry per userId, and `forEach` enumerates the
entries in strictly descending (not ascending) userId order. -/
theorem roster_unique_descending {TData : Type} (localUserId : String)
    (evts : List (ILivePresenceEvent TData)) :
    (((LivePresence.applyEvents localUserId evts
        ([] : List (LivePresenceUser TData))).map
          LivePresenceUser.userId).Pairwise (fun a b => b < a)) ∧
      ((LivePresence.applyEvents localUserId evts
        ([] : List (LivePresenceUser TData))).map
          LivePresenceUser.userId).Nodup := by
  have hp := applyEvents_pairwise localUserId evts [] (by simp)
  exact ⟨hp, hp.imp fun h => ne_of_gt h⟩

/-! ### C8: idempotence of applying the same record twice -/

/-- Merging a record for a userId not yet in the roster reports a change. -/
theorem updateMembersList_fresh_changed {TData : Type} (localUserId : String)
    (evt : ILivePresenceEvent TData) :
    ∀ users : List (LivePresenceUser TData),
      evt.userId ∉ users.map LivePresenceUser.userId →
      (LivePresence.updateMembersList localUserId evt users).2 = true := by
  intro users
  induction users with
  | nil => intro _; rfl
  | cons current rest ih =>
    intro h
    simp only [List.map_cons, List.mem_cons] at h
    push_neg at h
    rw [LivePresence.updateMembersList, if_neg h.1]
    by_cases h2 : current.userId < evt.userId
    · rw [if_pos h2]
    · rw [if_neg h2]
      exact ih h.2

/-- Merging the same record again right away reports no change, whatever the
starting roster was. -/
theorem updateMembersList_twice_no_change {TData : Type}
    (localUserId : String) (evt : ILivePresenceEvent TData) :
    ∀ users : List (LivePresenceUser TData),
      (LivePresence.updateMembersList localUserId evt
        (LivePresence.updateMembersList localUserId evt users).1).2
        = false := by
  intro users
  induction users with
  | nil =>
    show (LivePresence.updateMembersList localUserId evt
      [⟨evt, decide (evt.userId = localUserId)⟩]).2 = false
    rw [LivePresence.updateMembersList,
      if_pos (show evt.userId =
        (⟨evt, decide (evt.userId = localUserId)⟩ :
          LivePresenceUser TData).userId from rfl)]
    show (LivePresenceUser.updateReceived _ evt).2 = false
    rw [LivePresenceUser.updateReceived, if_neg (by simp [isNewer_self])]
  | cons current rest ih =>
    by_cases h1 : evt.userId = current.userId
    · rw [LivePresence.updateMembersList, if_pos h1]
      show (LivePresence.updateMembersList localUserId evt
        ((current.updateReceived evt).1 :: rest)).2 = false
      rw [LivePresence.updateMembersList,
        if_pos (h1.trans (updateReceived_userId_of_eq current evt h1).symm)]
      exact updateReceived_twice_no_change current evt
    · by_cases h2 : current.userId < evt.userId
      · rw [LivePresence.updateMembersList, if_neg h1, if_pos h2]
        show (LivePresence.updateMembersList localUserId evt
          (⟨evt, decide (evt.userId = localUserId)⟩ :: current :: rest)).2
          = false
        rw [LivePresence.updateMembersList,
          if_pos (show evt.userId =
            (⟨evt, decide (evt.userId = localUserId)⟩ :
              LivePresenceUser TData).userId from rfl)]
        show (LivePresenceUser.updateReceived _ evt).2 = false
        rw [LivePresenceUser.updateReceived, if_neg (by simp [isNewer_self])]
      · rw [LivePresence.updateMembersList, if_neg h1, if_neg h2]
        show (LivePresence.updateMembersList localUserId evt
          (current :: (LivePresence.updateMembersList localUserId evt
            rest).1)).2 = false
        rw [LivePresence.updateMembersList, if_neg h1, if_neg h2]
        exact ih

/-- C8: applying one identical record twice yields a change (and one
notification) the first time, provided the record's user was not yet
tracked, and no change (no notification) the second time, whatever the
roster; the underlying reason is that a record never replaces itself:
`isNewer(r, r, d)` is false for every record and debounce. -/
theorem roster_apply_twice_idempotent {TData : Type} (localUserId : String)
    (evt : ILivePresenceEvent TData) (users : List (LivePresenceUser TData))
    (h : evt.userId ∉ users.map LivePresenceUser.userId) :
    (LivePresence.updateMembersList localUserId evt users).2 = true ∧
      (LivePresence.updateMembersList localUserId evt
        (LivePresence.updateMembersList localUserId evt users).1).2
        = false ∧
      ∀ (r : IClientTimestamp) (d : Int),
        LiveEvent.isNewer (some r) r d = false :=
  ⟨updateMembersList_fresh_changed localUserId evt users h,
    updateMembersList_twice_no_change localUserId evt users,
    fun r d => isNewer_self r d⟩

/-- C8 witness: the double application at a concrete record over the empty
roster. -/
theorem roster_apply_twice_idempotent_witness :
    ((⟨"UpdatePresence", 7, some "c1", "u1", PresenceState.online, none⟩ :
        ILivePresenceEvent Unit).userId
        ∉ (([] : List (LivePresenceUser Unit)).map
            LivePresenceUser.userId)) ∧
      ((LivePresence.updateMembersList "u1"
          (⟨"UpdatePresence", 7, some "c1", "u1", PresenceState.online,
            none⟩ : ILivePresenceEvent Unit) []).2 = true ∧
        (LivePresence.updateMembersList "u1"
          (⟨"UpdatePresence", 7, some "c1", "u1", PresenceState.online,
            none⟩ : ILivePresenceEvent Unit)
          (LivePresence.updateMembersList "u1"
            (⟨"UpdatePresence", 7, some "c1", "u1", PresenceState.online,
              none⟩ : ILivePresenceEvent Unit) []).1).2 = false ∧
        ∀ (r : IClientTimestamp) (d : Int),
          LiveEvent.isNewer (some r) r d = false) :=
  ⟨by simp,
    roster_apply_twice_idempotent "u1"
      (⟨"UpdatePresence", 7, some "c1", "u1", PresenceState.online, none⟩ :
        ILivePresenceEvent Unit) [] (by simp)⟩

/-! ### C9: initialization guards -/

/-- C9 counterexample: the claim says calling `getCount` before the one-time
initialization throws; on a fresh object the source `getCount` has no
initialization check and simply returns the roster length, 0. -/
theorem getCount_before_initialization_ok :
    LivePresence.getCount (LivePresence.freshState Unit) none
      = Except.ok 0 := rfl

/-- C9 amended: `updatePresence` throws exactly when the object is not
initialized and `initialize` throws exactly when it already is, but
`forEach`, `getCount` and `getPresenceForUser` never throw: they read the
roster (empty before initialization) without any check. -/
theorem livePresence_method_guards {TData : Type}
    (p : LivePresenceState TData) (timestamp : Int) (userId : String)
    (data : Option TData) (state : PresenceState) (clientId : String)
    (newState : Option PresenceState) (newData : Option TData)
    (filter : Option PresenceState) (uid : String) :
    exceptIsOk
        (LivePresence.initializeState p timestamp userId data state clientId)
        = !p.scope ∧
      exceptIsOk
        (LivePresence.updatePresence p newState newData timestamp clientId)
        = p.scope ∧
      exceptIsOk (LivePresence.forEach p filter) = true ∧
      exceptIsOk (LivePresence.getCount p filter) = true ∧
      exceptIsOk (LivePresence.getPresenceForUser p uid) = true := by
  refine ⟨?_, ?_, rfl, rfl, rfl⟩
  · rw [LivePresence.initializeState]
    cases hp : p.scope
    · rw [if_neg (by simp [hp])]
      rfl
    · rw [if_pos (by simp [hp])]
      rfl
  · rw [LivePresence.updatePresence]
    cases hp : p.scope
    · rw [if_pos (by simp [hp])]
      rfl
    · rw [if_neg (by simp [hp])]
      rfl
